import Mathlib

/-!
Verification development for the assassyn module-graph IR and its
cycle-accurate execution semantics, together with the
incrementer-multiplier example design
(src/examples/incrementer-multiplier/main.py).

The repository sources available here are the example design and the
expression-module re-exports; the core executor, elaborator, register
and port semantics are specified in spec.md and are modelled from the
spec's words below (each such definition says so in its doc comment).
-/

/-- Width modulus for `UInt(32)` values in the example design. -/
def W32 : Nat := 2 ^ 32

/-- Modelled from the spec: explicit bit slicing `[lo:hi]` (missing
arithmetic-expression module) truncates a value to the requested bit
range with both endpoints inclusive (spec 4.1). -/
def bitSlice (v lo hi : Nat) : Nat :=
  (v >>> lo) % 2 ^ (hi - lo + 1)

/-- The multiplier body from the example: full-width product, then
`result[0:31]` (main.py, Multiplier.build). -/
def multBody (x y : Nat) : Nat :=
  bitSlice (x * y) 0 31

/-- Modelled from the spec: downstream input resolution (missing
Downstream core, spec 4.3 and 9): a tagged variant
`Produced(value) | Absent`, resolved to the produced value or the
declared default. -/
def resolveInput (driven : Option Nat) (dft : Nat) : Nat :=
  match driven with
  | some v => v
  | none => dft

/-- The DoubleValue downstream body from the example: the input with
default `UInt(32)(0)`, doubled by self-addition (main.py,
DoubleValue.build). -/
def doubleValueBody (driven : Option Nat) : Nat :=
  let value := resolveInput driven 0
  (value + value) % W32

/-- Modelled from the spec: ConditionScope (missing condition-scope
core, spec 3): effects recorded only when the guard captured at entry
is true, suppressed atomically otherwise. -/
def condEffects {E : Type} (cond : Bool) (effects : List E) : List E :=
  if cond then effects else []

/-- The driver's guarded async-call pushes from the example: under
`Condition(v < 10)`, push `(v, 3)` to the multiplier's `(x, y)` ports
(main.py, Driver.build). -/
def driverPushes (v : Nat) : List (Nat × Nat) :=
  condEffects (decide (v < 10)) [(v, 3)]

/-- A log record emitted by the `log` intrinsic: owning module name,
cycle number, and the values interpolated into the message. -/
structure LogRec where
  module : String
  cycle : Nat
  values : List Nat
deriving DecidableEq, Repr

/-- Modelled from the spec: per-cycle register state (missing register
core, spec 3 and 4.4): the value committed at the previous cycle
boundary, plus writes buffered during the current cycle. -/
structure RegCycle where
  committed : Nat → Nat
  pending : List (Nat × Nat)

/-- Modelled from the spec: `read(index)` returns the value committed
at the previous cycle boundary (spec 4.4). -/
def regRead (r : RegCycle) (i : Nat) : Nat :=
  r.committed i

/-- Modelled from the spec: `write(index, value)` records a pending
write, it never touches the committed state (spec 4.4). -/
def regWrite (r : RegCycle) (i v : Nat) : RegCycle :=
  { r with pending := r.pending ++ [(i, v)] }

/-- Issue a whole list of writes during one cycle. -/
def applyWrites (r : RegCycle) (ws : List (Nat × Nat)) : RegCycle :=
  ws.foldl (fun acc p => regWrite acc p.1 p.2) r

/-- Modelled from the spec: at the cycle boundary all pending writes
commit atomically (spec 4.4). -/
def regCommit (r : RegCycle) : Nat → Nat :=
  r.pending.foldl (fun f p j => if j = p.1 then p.2 else f j) r.committed

/-- Modelled from the spec: atomic all-port pop (missing module/port
core, spec 4.2): either every declared port is non-empty and exactly
one value is popped from each, or nothing executes and no port
changes. -/
def popAllPorts (ports : List (List Nat)) : Option (List Nat × List (List Nat)) :=
  if ports.all (fun q => !q.isEmpty)
  then some (ports.map (fun q => q.headD 0), ports.map List.tail)
  else none

/-- One operation against a port's FIFO queue: a push issued by an
async call, or a pop by the owning module's body. -/
inductive FifoOp where
  | push (v : Nat)
  | pop
deriving DecidableEq, Repr

/-- The values pushed by a sequence of FIFO operations, in issue
order. -/
def pushedOf (ops : List FifoOp) : List Nat :=
  ops.filterMap (fun op =>
    match op with
    | .push v => some v
    | .pop => none)

/-- Modelled from the spec: port FIFO discipline (missing port core,
spec 3): pushes enqueue at the back, pops dequeue at the front; a pop
against an empty queue yields nothing (the owner is not eligible).
Returns the final queue and the popped values in pop order. -/
def runFifo (q : List Nat) (ops : List FifoOp) : List Nat × List Nat :=
  match ops with
  | [] => (q, [])
  | .push v :: rest => runFifo (q ++ [v]) rest
  | .pop :: rest =>
      match q with
      | [] => runFifo [] rest
      | x :: xs =>
          let r := runFifo xs rest
          (r.1, x :: r.2)

/-- Modelled from the spec: a backpressure failure reports the
overflowing port and the cycle number (spec 4.2 and 7). -/
structure BackpressureError where
  port : String
  cycle : Nat
deriving DecidableEq, Repr

/-- Modelled from the spec: committing a cycle's buffered pushes into
a port of maximum depth `cap` (missing executor core, spec 4.2): a
push that would make the queue's length exceed `cap` fails fatally
with a `BackpressureError` naming the port and the cycle. -/
def commitPushes (cap : Nat) (port : String) (cycle : Nat) :
    List Nat → List Nat → Except BackpressureError (List Nat)
  | q, [] => .ok q
  | q, v :: vs =>
      if q.length + 1 ≤ cap
      then commitPushes cap port cycle (q ++ [v]) vs
      else .error ⟨port, cycle⟩

/-- Modelled from the spec: an elaboration-time write statement
(missing elaborator core, spec 4.4): the target register cell and
whether the write sits under a ConditionScope. -/
structure WriteStmt where
  cell : Nat
  conditioned : Bool
deriving DecidableEq, Repr

/-- Modelled from the spec: elaboration-error kinds relevant here
(spec 7). -/
inductive ElabError where
  | WriteConflict
deriving DecidableEq, Repr

/-- The number of unconditioned writes a design issues to one cell in
one cycle. -/
def unconditionedWrites (ws : List WriteStmt) (c : Nat) : Nat :=
  (ws.filter (fun w => !w.conditioned && w.cell == c)).length

/-- Modelled from the spec: the elaborator's static write-conflict
check (missing elaborator core, spec 4.4 and 8, Scenario C): two
unconditioned writes to the same cell in one cycle fail elaboration
with `WriteConflict`. -/
def elabCheck (ws : List WriteStmt) : Except ElabError Unit :=
  if ws.any (fun w => !w.conditioned && 2 ≤ unconditionedWrites ws w.cell)
  then .error .WriteConflict
  else .ok ()

/-- Modelled from the spec: running a design is elaboration followed
by simulation (spec 4.6): on an elaboration error the run aborts
before any cycle executes, otherwise `n` cycles run. The result
reports either the error or the number of executed cycles. -/
def runDesign (ws : List WriteStmt) (n : Nat) : ElabError ⊕ Nat :=
  match elabCheck ws with
  | .error e => .inl e
  | .ok _ => .inr n

/-- The per-cycle execution state of the incrementer-multiplier
example design: the cycle counter, the committed counter register
`cnt`, the multiplier's `x` and `y` port queues, the activation counts
of the three modules, and the emitted log. -/
structure SimState where
  cycle : Nat
  cnt : Nat
  fifoX : List Nat
  fifoY : List Nat
  driverActs : Nat
  multActs : Nat
  downActs : Nat
  logs : List LogRec
deriving DecidableEq, Repr

/-- The multiplier's atomic all-port pop for this cycle: the pair of
front values when both ports are non-empty, nothing otherwise. -/
def multFire (s : SimState) : Option (Nat × Nat) :=
  match s.fifoX, s.fifoY with
  | x :: _, y :: _ => some (x, y)
  | _, _ => none

/-- The log records the example design emits in the cycle executed
from state `s` (cycle number `s.cycle + 1`): the driver logs the
pre-increment counter, the multiplier (when eligible) logs
`x * y = result[0:31]`, and the downstream doubler logs the driven
value and its double (main.py; ordering per spec 4.6 steps 2-4). -/
def cycleLogs (s : SimState) : List LogRec :=
  let t := s.cycle + 1
  let v := s.cnt
  [⟨"Driver", t, [v]⟩]
    ++ (match multFire s with
        | some (x, y) => [⟨"Multiplier", t, [x, y, multBody x y]⟩]
        | none => [])
    ++ [⟨"Downstream", t, [resolveInput (some v) 0, doubleValueBody (some v)]⟩]

/-- One simulated cycle of the example design (spec 4.6 global loop):
the driver runs unconditionally, reads the committed counter, buffers
the increment write and the guarded pushes; the multiplier pops both
ports atomically when non-empty; the downstream doubler runs on the
driver's same-cycle value; then register writes and port pushes commit
at the boundary. -/
def step (s : SimState) : SimState :=
  let v := s.cnt
  let pushes := driverPushes v
  let fired := (multFire s).isSome
  { cycle := s.cycle + 1
    cnt := (v + 1) % W32
    fifoX := (if fired then s.fifoX.tail else s.fifoX) ++ pushes.map Prod.fst
    fifoY := (if fired then s.fifoY.tail else s.fifoY) ++ pushes.map Prod.snd
    driverActs := s.driverActs + 1
    multActs := s.multActs + (if fired then 1 else 0)
    downActs := s.downActs + 1
    logs := s.logs ++ cycleLogs s }

/-- The initial state with the counter register committed to `c0`:
cycle 0, empty port queues, no activations, empty log. -/
def initState (c0 : Nat) : SimState :=
  ⟨0, c0, [], [], 0, 0, 0, []⟩

/-- Run the example design for `n` cycles from counter value `c0`. -/
def simulateFrom (c0 n : Nat) : SimState :=
  step^[n] (initState c0)

/-- Run the example design for `n` cycles from the reset counter value
0 (registers reset to zero). -/
def simulate (n : Nat) : SimState :=
  simulateFrom 0 n

/-- Modelled from the spec: a register's initial-fill policy (missing
executor core, spec 6): either a deterministic zero reset or a
randomized fill drawn from the configured seed. -/
inductive InitPolicy where
  | zero
  | randomized
deriving DecidableEq, Repr

/-- Modelled from the spec: the initial register value under a fill
policy and a seed (spec 6, `deterministic_seed`): the seed enters only
through randomized fills. -/
def initReg (p : InitPolicy) (seed : Nat) : Nat :=
  match p with
  | .zero => 0
  | .randomized => seed % W32

/-- The log output of an `n`-cycle run of the example design whose
counter register is initial-filled under policy `p` with seed
`seed`. -/
def runWithSeed (p : InitPolicy) (seed n : Nat) : List LogRec :=
  (simulateFrom (initReg p seed) n).logs

lemma simulateFrom_succ (c0 n : Nat) :
    simulateFrom c0 (n + 1) = step (simulateFrom c0 n) := by
  simp [simulateFrom, Function.iterate_succ_apply']

lemma simulate_succ (n : Nat) : simulate (n + 1) = step (simulate n) :=
  simulateFrom_succ 0 n

lemma one_lt_W32 : 1 < W32 := by norm_num [W32]

lemma add_one_mod_W32 (n : Nat) : (n % W32 + 1) % W32 = (n + 1) % W32 := by
  rw [Nat.add_mod n 1, Nat.mod_eq_of_lt one_lt_W32]

lemma simulate_cycle : ∀ n, (simulate n).cycle = n
  | 0 => rfl
  | n + 1 => by
      rw [simulate_succ]
      simp [step, simulate_cycle n]

lemma simulate_cnt : ∀ n, (simulate n).cnt = n % W32
  | 0 => by simp [simulate, simulateFrom, initState]
  | n + 1 => by
      rw [simulate_succ]
      simp [step, simulate_cnt n, add_one_mod_W32]

lemma simulate_cnt_of_lt {n : Nat} (h : n < W32) : (simulate n).cnt = n := by
  rw [simulate_cnt, Nat.mod_eq_of_lt h]

lemma hundred_lt_W32 : 100 < W32 := by norm_num [W32]

lemma simulate_driverActs : ∀ n, (simulate n).driverActs = n
  | 0 => rfl
  | n + 1 => by
      rw [simulate_succ]
      simp [step, simulate_driverActs n]

lemma simulate_downActs : ∀ n, (simulate n).downActs = n
  | 0 => rfl
  | n + 1 => by
      rw [simulate_succ]
      simp [step, simulate_downActs n]

lemma step_logs (s : SimState) : (step s).logs = s.logs ++ cycleLogs s := by
  simp [step]

lemma cycleLogs_mem_simulate : ∀ (n t : Nat), t < n → ∀ (r : LogRec),
    r ∈ cycleLogs (simulate t) → r ∈ (simulate n).logs
  | 0, _, h => absurd h (Nat.not_lt_zero _)
  | n + 1, t, h => by
      intro r hr
      rw [simulate_succ, step_logs]
      rcases Nat.lt_succ_iff_lt_or_eq.mp h with h' | h'
      · exact List.mem_append_left _ (cycleLogs_mem_simulate n t h' r hr)
      · subst h'
        exact List.mem_append_right _ hr

lemma driver_log_mem (s : SimState) :
    (⟨"Driver", s.cycle + 1, [s.cnt]⟩ : LogRec) ∈ cycleLogs s := by
  rcases h : multFire s with _ | ⟨x, y⟩ <;> simp [cycleLogs, h]

lemma downstream_log_mem (s : SimState) :
    (⟨"Downstream", s.cycle + 1, [s.cnt, doubleValueBody (some s.cnt)]⟩ : LogRec) ∈
      cycleLogs s := by
  rcases h : multFire s with _ | ⟨x, y⟩ <;> simp [cycleLogs, h, resolveInput]

lemma applyWrites_committed : ∀ (ws : List (Nat × Nat)) (r : RegCycle),
    (applyWrites r ws).committed = r.committed
  | [], _ => rfl
  | w :: ws, r => by
      show (applyWrites (regWrite r w.1 w.2) ws).committed = _
      rw [applyWrites_committed ws]
      rfl

/-- C1: a register read during cycle t returns the value committed at
the end of cycle t-1, no matter how many writes were buffered during
cycle t (double-buffered semantics); in the example Driver the value
logged in cycle t+1 is the pre-increment counter t, and the write
becomes the committed value only at the next cycle. -/
theorem register_double_buffer :
    (∀ (r : RegCycle) (ws : List (Nat × Nat)) (i : Nat),
        regRead (applyWrites r ws) i = regRead r i)
    ∧ ∀ t, t < 100 →
        (simulate t).cnt = t
        ∧ (⟨"Driver", t + 1, [t]⟩ : LogRec) ∈ (simulate 100).logs
        ∧ (simulate (t + 1)).cnt = t + 1 := by
  constructor
  · intro r ws i
    show (applyWrites r ws).committed i = r.committed i
    rw [applyWrites_committed ws]
  · intro t ht
    have hW : t < W32 := lt_trans ht hundred_lt_W32
    have hW1 : t + 1 < W32 := by
      have := hundred_lt_W32
      omega
    have hcnt : (simulate t).cnt = t := simulate_cnt_of_lt hW
    refine ⟨hcnt, ?_, simulate_cnt_of_lt hW1⟩
    have hmem := driver_log_mem (simulate t)
    rw [simulate_cycle t, hcnt] at hmem
    exact cycleLogs_mem_simulate 100 t ht _ hmem

/-- Witness for C1 at t = 5. -/
theorem register_double_buffer_witness :
    (simulate 5).cnt = 5
    ∧ (⟨"Driver", 6, [5]⟩ : LogRec) ∈ (simulate 100).logs
    ∧ (simulate 6).cnt = 6 :=
  register_double_buffer.2 5 (by decide)

/-- C2: over the 100-cycle run of the example, the driver activates
exactly 100 times and the multiplier exactly 10 times; the guarded
async call enqueues (value, 3) exactly when the pre-cycle counter
value is below 10 and is suppressed otherwise. -/
theorem guarded_call_activation_counts :
    (simulate 100).driverActs = 100
    ∧ (simulate 100).multActs = 10
    ∧ (∀ v, v < 10 → driverPushes v = [(v, 3)])
    ∧ (∀ v, 10 ≤ v → driverPushes v = []) := by
  refine ⟨by decide, by decide, ?_, ?_⟩
  · intro v hv
    simp [driverPushes, condEffects, hv]
  · intro v hv
    simp [driverPushes, condEffects, Nat.not_lt_of_le hv]

/-- Witness for C2 at v = 5 and v = 10. -/
theorem guarded_call_activation_counts_witness :
    driverPushes 5 = [(5, 3)] ∧ driverPushes 10 = [] :=
  ⟨guarded_call_activation_counts.2.2.1 5 (by decide),
   guarded_call_activation_counts.2.2.2 10 (by decide)⟩

/-- C3: a downstream input resolves to the producer's value when one
was driven this cycle and to the declared default otherwise, never a
mix; the example DoubleValue node therefore outputs 2*v for a driven
v and 0 (twice the default) when undriven. -/
theorem downstream_default_resolution :
    (∀ dft, resolveInput none dft = dft)
    ∧ (∀ v dft, resolveInput (some v) dft = v)
    ∧ (∀ v, doubleValueBody (some v) = (v + v) % W32)
    ∧ doubleValueBody none = 0 := by
  refine ⟨fun _ => rfl, fun _ _ => rfl, fun v => rfl, rfl⟩

/-- C9: for a deterministic design (zero-reset register fill, no
randomized defaults) the executor's log output is a function of the
design and cycle count alone: runs with different seeds produce
identical logs. -/
theorem deterministic_replay (p : InitPolicy) (h : p = .zero) :
    ∀ seed1 seed2 n, runWithSeed p seed1 n = runWithSeed p seed2 n := by
  subst h
  intro seed1 seed2 n
  rfl

/-- Witness for C9 with seeds 17 and 42 over 3 cycles. -/
theorem deterministic_replay_witness :
    runWithSeed .zero 17 3 = runWithSeed .zero 42 3 :=
  deterministic_replay .zero rfl 17 42 3

lemma all_nonEmpty_iff (ports : List (List Nat)) :
    (ports.all (fun q => !q.isEmpty) = true) ↔ [] ∉ ports := by
  rw [List.all_eq_true]
  constructor
  · intro h hmem
    exact absurd (h [] hmem) (by simp)
  · intro h q hq
    simp only [Bool.not_eq_true']
    cases hq2 : q.isEmpty
    · rfl
    · exact absurd (List.isEmpty_iff.mp hq2 ▸ hq) h

lemma zipWith_cons_headD_tail : ∀ (l : List (List Nat)), (∀ q ∈ l, q ≠ []) →
    List.zipWith (fun v q => v :: q) (l.map (fun q => q.headD 0)) (l.map List.tail) = l
  | [], _ => rfl
  | q :: l, h => by
      obtain ⟨a, as, rfl⟩ := List.exists_cons_of_ne_nil (h q (List.mem_cons_self q l))
      simp only [List.map_cons, List.zipWith_cons_cons, List.headD_cons, List.tail_cons]
      rw [zipWith_cons_headD_tail l (fun q hq => h q (List.mem_cons_of_mem _ hq))]

/-- C4: an activation of a module that pops all ports either finds
every declared port non-empty and pops exactly one value from each
(the ports decompose as popped-value consed onto remainder), or the
module does not execute and no port changes; a module with no ports,
like the driver, succeeds unconditionally. -/
theorem pop_all_ports_atomic (ports : List (List Nat)) :
    (popAllPorts ports = none ↔ [] ∈ ports)
    ∧ (∀ vals rest, popAllPorts ports = some (vals, rest) →
        ports = List.zipWith (fun v q => v :: q) vals rest)
    ∧ popAllPorts ([] : List (List Nat)) = some ([], []) := by
  refine ⟨?_, ?_, rfl⟩
  · rw [popAllPorts]
    rcases hall : ports.all (fun q => !q.isEmpty) with _ | _
    · simp [hall]
      by_contra hmem
      exact absurd ((all_nonEmpty_iff ports).mpr hmem) (by simp [hall])
    · simp [hall]
      exact (all_nonEmpty_iff ports).mp hall
  · intro vals rest h
    rw [popAllPorts] at h
    rcases hall : ports.all (fun q => !q.isEmpty) with _ | _
    · rw [hall] at h
      simp at h
    · rw [hall, if_pos rfl] at h
      injection h with h1
      have h2 : List.map (fun q => q.headD 0) ports = vals := congrArg Prod.fst h1
      have h3 : List.map List.tail ports = rest := congrArg Prod.snd h1
      subst h2
      subst h3
      have hne : ∀ q ∈ ports, q ≠ [] := by
        intro q hq hq2
        exact absurd ((all_nonEmpty_iff ports).mp hall) (by simp [hq2 ▸ hq])
      rw [zipWith_cons_headD_tail ports hne]

/-- Witness for C4: popping `[[1, 2], [3]]` yields the fronts `[1, 3]`
and the ports decompose accordingly. -/
theorem pop_all_ports_atomic_witness :
    ([[1, 2], [3]] : List (List Nat)) =
      List.zipWith (fun v q => v :: q) [1, 3] [[2], []] :=
  (pop_all_ports_atomic [[1, 2], [3]]).2.1 [1, 3] [[2], []] (by decide)

lemma runFifo_spec : ∀ (ops : List FifoOp) (q : List Nat),
    (runFifo q ops).2 ++ (runFifo q ops).1 = q ++ pushedOf ops
  | [], q => by simp [runFifo, pushedOf]
  | .push v :: rest, q => by
      show (runFifo (q ++ [v]) rest).2 ++ (runFifo (q ++ [v]) rest).1
        = q ++ pushedOf (.push v :: rest)
      rw [runFifo_spec rest (q ++ [v])]
      simp [pushedOf]
  | .pop :: rest, q => by
      match q with
      | [] =>
          show (runFifo [] rest).2 ++ (runFifo [] rest).1 = [] ++ pushedOf (.pop :: rest)
          rw [runFifo_spec rest []]
          simp [pushedOf]
      | x :: xs =>
          show (x :: (runFifo xs rest).2) ++ (runFifo xs rest).1
            = (x :: xs) ++ pushedOf (.pop :: rest)
          rw [List.cons_append, runFifo_spec rest xs]
          simp [pushedOf]

/-- C5: port queues are FIFO; over any sequence of pushes and pops the
popped values followed by the remaining queue equal the initial queue
followed by the pushed values in issue order, so pops starting from an
empty port return a prefix of the push sequence, never reordered,
across cycle boundaries included. -/
theorem fifo_order (q : List Nat) (ops : List FifoOp) :
    (runFifo q ops).2 ++ (runFifo q ops).1 = q ++ pushedOf ops
    ∧ (runFifo [] ops).2 <+: pushedOf ops := by
  refine ⟨runFifo_spec ops q, ?_⟩
  exact ⟨(runFifo [] ops).1, by simpa using runFifo_spec ops []⟩

/-- C6: explicit bit slicing `[lo:hi]` keeps exactly the bits from
position lo to position hi, both endpoints inclusive; hence the
example multiplier's `result[0:31]` is the low 32 bits of the
full-width product, i.e. `(x * y) % 2^32`. -/
theorem slice_inclusive_truncation :
    (∀ x y, multBody x y = (x * y) % 2 ^ 32)
    ∧ (∀ v lo hi i, i ≤ hi - lo →
        Nat.testBit (bitSlice v lo hi) i = Nat.testBit v (lo + i))
    ∧ (∀ v lo hi, bitSlice v lo hi < 2 ^ (hi - lo + 1)) := by
  refine ⟨?_, ?_, ?_⟩
  · intro x y
    simp [multBody, bitSlice]
  · intro v lo hi i hle
    have hlt : i < hi - lo + 1 := Nat.lt_succ_of_le hle
    rw [bitSlice, Nat.testBit_mod_two_pow, Nat.testBit_shiftRight]
    simp [hlt]
  · intro v lo hi
    exact Nat.mod_lt _ (pow_pos (by norm_num) _)

/-- Witness for C6: bit 1 of `12[1:2]` is bit 2 of 12. -/
theorem slice_inclusive_truncation_witness :
    Nat.testBit (bitSlice 12 1 2) 1 = Nat.testBit 12 (1 + 1) :=
  slice_inclusive_truncation.2.1 12 1 2 1 (by decide)

/-- C7: a design with two unconditioned writes to the same register
cell in one cycle fails elaboration with WriteConflict, and the run
aborts before any simulation cycle executes. -/
theorem write_conflict_fails_elaboration (ws : List WriteStmt) (c : Nat) (n : Nat)
    (h : 2 ≤ unconditionedWrites ws c) :
    elabCheck ws = .error .WriteConflict
    ∧ runDesign ws n = .inl .WriteConflict := by
  have hex : ws.any (fun w => !w.conditioned && 2 ≤ unconditionedWrites ws w.cell) = true := by
    have hpos : 0 < (ws.filter (fun w => !w.conditioned && w.cell == c)).length := by
      have := h
      unfold unconditionedWrites at this
      omega
    obtain ⟨w, hw⟩ := List.exists_mem_of_length_pos hpos
    obtain ⟨hwmem, hwp⟩ := List.mem_filter.mp hw
    obtain ⟨h1, h2⟩ := Bool.and_eq_true_iff.mp hwp
    have hcell : w.cell = c := beq_iff_eq.mp h2
    rw [List.any_eq_true]
    refine ⟨w, hwmem, ?_⟩
    rw [hcell]
    exact Bool.and_eq_true_iff.mpr ⟨h1, decide_eq_true h⟩
  constructor
  · simp [elabCheck, hex]
  · simp [runDesign, elabCheck, hex]

/-- Witness for C7: two unconditioned writes to cell 0. -/
theorem write_conflict_fails_elaboration_witness :
    elabCheck [⟨0, false⟩, ⟨0, false⟩] = .error .WriteConflict
    ∧ runDesign [⟨0, false⟩, ⟨0, false⟩] 5 = .inl .WriteConflict :=
  write_conflict_fails_elaboration [⟨0, false⟩, ⟨0, false⟩] 0 5 (by decide)

lemma commitPushes_overflow : ∀ (ps : List Nat) (cap : Nat) (p : String) (t : Nat)
    (q : List Nat), q.length ≤ cap → cap < q.length + ps.length →
    commitPushes cap p t q ps = .error ⟨p, t⟩
  | [], cap, p, t, q, hle, hlt => by
      simp at hlt
      omega
  | v :: vs, cap, p, t, q, hle, hlt => by
      show (if q.length + 1 ≤ cap then commitPushes cap p t (q ++ [v]) vs
            else .error ⟨p, t⟩) = .error ⟨p, t⟩
      by_cases hc : q.length + 1 ≤ cap
      · rw [if_pos hc]
        apply commitPushes_overflow vs
        · simpa using hc
        · simp
          simp at hlt
          omega
      · rw [if_neg hc]

/-- C8: a push that would make a port of maximum depth `cap` exceed
that depth fails fatally with a BackpressureError reporting the port
and the cycle number; in particular a capacity-1 port receiving two
pushes committing in the same cycle aborts with that cycle's
number. -/
theorem backpressure_fatal (cap : Nat) (p : String) (t : Nat)
    (q ps : List Nat) (h1 : q.length ≤ cap) (h2 : cap < q.length + ps.length) :
    commitPushes cap p t q ps = .error ⟨p, t⟩
    ∧ ∀ v1 v2, commitPushes 1 p t [] [v1, v2] = .error ⟨p, t⟩ := by
  refine ⟨commitPushes_overflow ps cap p t q h1 h2, ?_⟩
  intro v1 v2
  exact commitPushes_overflow [v1, v2] 1 p t [] (by simp) (by simp)

/-- Witness for C8: a capacity-1 port, two pushes, cycle 7. -/
theorem backpressure_fatal_witness :
    commitPushes 1 "x" 7 [] [4, 5] = .error ⟨"x", 7⟩ :=
  (backpressure_fatal 1 "x" 7 [] [4, 5] (by decide) (by decide)).1

lemma two_hundred_le_W32 : 200 ≤ W32 := by norm_num [W32]

/-- C10: the downstream doubler invoked from the driver's body in
cycle t observes the driver's pre-increment counter value of that same
cycle: for every cycle of the 100-cycle run, the Downstream log record
carries the same value t as that cycle's Driver record together with
exactly its double, and the downstream activates in all 100 cycles,
the same count as the driver. -/
theorem downstream_observes_driver_value :
    (simulate 100).downActs = (simulate 100).driverActs
    ∧ (simulate 100).downActs = 100
    ∧ ∀ t, t < 100 →
        (⟨"Driver", t + 1, [t]⟩ : LogRec) ∈ (simulate 100).logs
        ∧ (⟨"Downstream", t + 1, [t, 2 * t]⟩ : LogRec) ∈ (simulate 100).logs := by
  refine ⟨by decide, by decide, ?_⟩
  intro t ht
  have hW : t < W32 := lt_trans ht hundred_lt_W32
  have hcnt : (simulate t).cnt = t := simulate_cnt_of_lt hW
  constructor
  · have hmem := driver_log_mem (simulate t)
    rw [simulate_cycle t, hcnt] at hmem
    exact cycleLogs_mem_simulate 100 t ht _ hmem
  · have hmem := downstream_log_mem (simulate t)
    rw [simulate_cycle t, hcnt] at hmem
    have hdv : doubleValueBody (some t) = 2 * t := by
      have h2 : t + t < W32 := by
        have := two_hundred_le_W32
        omega
      simp [doubleValueBody, resolveInput]
      rw [Nat.mod_eq_of_lt h2]
      omega
    rw [hdv] at hmem
    exact cycleLogs_mem_simulate 100 t ht _ hmem

/-- Witness for C10 at t = 4. -/
theorem downstream_observes_driver_value_witness :
    (⟨"Driver", 5, [4]⟩ : LogRec) ∈ (simulate 100).logs
    ∧ (⟨"Downstream", 5, [4, 2 * 4]⟩ : LogRec) ∈ (simulate 100).logs :=
  downstream_observes_driver_value.2.2 4 (by decide)
